import Mathlib

/-!
Shallow embedding of the TTS speech synthesizer cache
(src/tts/src/tts/synthesizer.py) and its metadata store.

The cache manager logic (`_call_engine`), the request normalizer
(`_parse_request_or_raise`) and the service handler
(`_node_request_handler`) are translated from the source.  The metadata
store (class `DB` in tts/db.py) is not part of the sources at hand, so
its operations are modelled from the spec's Cache Metadata Store
contract together with the SQL statements visible in synthesizer.py.

Machine model: the filesystem is an association list from paths to file
sizes, and wall-clock time is a natural-number counter that advances by
one between requests (all the code needs is that `time.time()` is
non-decreasing and distinct across requests).
-/

namespace TTS

/-- Canonical request parameters, the `kw` dict after
`_parse_request_or_raise` filled in the defaults.  An explicit
`output_path` means the caller manages the file.  -/
structure Request where
  output_format : String
  voice_id : String
  sample_rate : String
  text_type : String
  text : String
  output_path : Option String
deriving DecidableEq

/-- The structured metadata document: the optional keys that a caller
may supply in the JSON metadata string. -/
structure MetaDoc where
  mOutputFormat : Option String
  mVoiceId : Option String
  mSampleRate : Option String
  mTextType : Option String
  mOutputPath : Option String
deriving DecidableEq

/-- The raw metadata string of a SynthesizerRequest, as seen by
`json.loads`: empty/absent, a well-formed JSON document, or a malformed
string on which `json.loads` raises with some message. -/
inductive RawMeta where
  | absent
  | doc (m : MetaDoc)
  | malformed (err : String)
deriving DecidableEq

/-- A SynthesizerRequest: free text plus the raw metadata string. -/
structure RawRequest where
  text : String
  metadata : RawMeta
deriving DecidableEq

def emptyMeta : MetaDoc := ⟨none, none, none, none, none⟩

/-- Python's `str.lower`, written as a direct character map so that it
computes inside the kernel. -/
def strLower (s : String) : String := ⟨s.data.map Char.toLower⟩

/-- Default-filling of `_parse_request_or_raise` (lines 261-266 of
synthesizer.py), with the defaults set in `SpeechSynthesizer.__init__`. -/
def canonicalize (m : MetaDoc) (text : String) : Request :=
  let ofmt := m.mOutputFormat.getD "ogg_vorbis"
  { output_format := ofmt
    voice_id := m.mVoiceId.getD "Joanna"
    sample_rate := m.mSampleRate.getD (if strLower ofmt = "pcm" then "16000" else "22050")
    text_type := m.mTextType.getD "text"
    text := text
    output_path := m.mOutputPath }

/-- `_parse_request_or_raise`: `json.loads(request.metadata) if request.metadata else`
the empty dict, then defaults.  A malformed document raises (modelled as
`Except.error`). -/
def parseRequestOrRaise (r : RawRequest) : Except String Request :=
  match r.metadata with
  | .malformed e => .error e
  | .absent => .ok (canonicalize emptyMeta r.text)
  | .doc m => .ok (canonicalize m r.text)

/-- The filesystem: a finite map from paths to file sizes in bytes. -/
abbrev Disk := List (String × Nat)

/-- Writing a file (`open(path, 'wb')` plus write) replaces any previous
content at that path. -/
def diskWrite (d : Disk) (p : String) (sz : Nat) : Disk :=
  (p, sz) :: d.filter (fun e => e.1 ≠ p)

/-- `os.path.getsize` as a partial function: `none` when the file does
not exist (where Python raises OSError). -/
def diskSize (d : Disk) (p : String) : Option Nat :=
  (d.find? (fun e => e.1 = p)).map (·.2)

/-- `os.path.exists`. -/
def diskExists (d : Disk) (p : String) : Bool :=
  (d.find? (fun e => e.1 = p)).isSome

/-- `os.remove`, as a no-op on a missing path. -/
def diskDelete (d : Disk) (p : String) : Disk :=
  d.filter (fun e => e.1 ≠ p)

/-- A row of the `cache` table:
`hash, file, audio_type, last_accessed, size`. -/
structure Entry where
  hash : String
  file : String
  audio_type : String
  last_accessed : Nat
  size : Nat
deriving DecidableEq

/-- The `cache` table, in insertion order. -/
abbrev Table := List Entry

/-- The SQL `SELECT file, audio_type FROM cache WHERE hash=?` with
`fetchone`: the first row whose hash matches. -/
def dbFind (t : Table) (h : String) : Option Entry :=
  t.find? (fun e => e.hash = h)

/-- The SQL `update cache set last_accessed=? where hash=?`. -/
def dbTouch (t : Table) (h : String) (now : Nat) : Table :=
  t.map (fun e => if e.hash = h then { e with last_accessed := now } else e)

/-- The SQL `insert into cache(hash, file, audio_type, last_accessed, size)`. -/
def dbInsert (t : Table) (e : Entry) : Table := t ++ [e]

/-- Modelled from the spec: `DB.remove_file` of tts/db.py (not among the
sources at hand).  Per the spec's self-heal and EVICT steps it deletes
the backing file from disk and removes the row(s) whose `file` column
matches, and is a no-op on what is absent. -/
def dbRemoveFile (t : Table) (d : Disk) (p : String) : Table × Disk :=
  (t.filter (fun e => e.file ≠ p), diskDelete d p)

/-- Modelled from the spec: `DB.get_size`, the spec's `totalSize()`:
sum of `sizeBytes` over all live entries. -/
def dbGetSize (t : Table) : Nat := (t.map (·.size)).sum

/-- Modelled from the spec: `DB.get_num_files`, the spec's `count()`. -/
def dbGetNumFiles (t : Table) : Nat := t.length

/-- The SQL `select file, min(last_accessed), size from cache`: the row
with the smallest `last_accessed`; ties broken deterministically by
taking the earliest row. -/
def selectLRU : Table → Option Entry
  | [] => none
  | e :: es =>
    some (es.foldl (fun acc x => if x.last_accessed < acc.last_accessed then x else acc) e)

/-- The engine's response document: `Audio File`, `Audio Type`,
`Amazon Polly Response Metadata`, and the optional `Exception` field
(the `Traceback` travels with the exception and is folded into it). -/
structure EngResult where
  audioFile : String
  audioType : String
  pollyMeta : String
  exc : Option String
deriving DecidableEq

/-- A synthesis engine: from the full keyword set (including the chosen
output path) and the current filesystem to a new filesystem and a
response document.  The engine touches only the disk, never the store. -/
def EngineFn : Type := Request → Disk → Disk × EngResult

/-- The file shipped with the package that the dummy engine reports when
disconnected. -/
def connErrorFile : String := "pkg/../src/tts/data/connerror.ogg"

/-- `SpeechSynthesizer.DummyEngine`: connection flag and target file
size. -/
structure DummyEngine where
  connected : Bool
  file_size : Nat
deriving DecidableEq

/-- `DummyEngine.__call__`: when connected, write `file_size` random
bytes at the requested output path and report success; the audio type
falls back to `ogg_vorbis` because the capitalized `OutputFormat` key is
never present in the synthesizer's keyword set.  When disconnected,
write nothing and fill in the `Exception` field. -/
def dummyEngine (de : DummyEngine) : EngineFn := fun r d =>
  if de.connected then
    let p := r.output_path.getD ""
    (diskWrite d p de.file_size,
     { audioFile := p
       audioType := "ogg_vorbis"
       pollyMeta := "(some header: some data)"
       exc := none })
  else
    (d, { audioFile := connErrorFile
          audioType := "ogg"
          pollyMeta := ""
          exc := some "(dummy head: dummy val)" })

/-- `json.dumps(kw, sort_keys=True)` at the moment of hashing: the five
canonical fields in sorted key order (`output_path` is not yet in `kw`
on this branch). -/
def canonicalJson (kw : Request) : String :=
  "output_format=" ++ kw.output_format ++
  ";sample_rate=" ++ kw.sample_rate ++
  ";text=" ++ kw.text ++
  ";text_type=" ++ kw.text_type ++
  ";voice_id=" ++ kw.voice_id

/-- `hashlib.md5(...).hexdigest()`, modelled as an injective digest: the
claims depend only on the digest being a deterministic function of the
canonical serialization that separates distinct serializations, which
the identity embedding provides. -/
def md5hex (s : String) : String := s

/-- The cache key of a request on the cached branch. -/
def cacheHash (kw : Request) : String := md5hex (canonicalJson kw)

/-- `os.path.abspath(os.path.join(os.sep, 'tmp', 'voice_' + hash))`:
the deterministic output path derived from the cache key. -/
def derivedPath (kw : Request) : String := "/tmp/voice_" ++ cacheHash kw

deriving instance DecidableEq for Except

/-- The mutable world as the cache manager sees it: the `cache` table,
the filesystem, and the current time. -/
structure CState where
  table : Table
  disk : Disk
  clock : Nat
deriving DecidableEq

def initState : CState := ⟨[], [], 0⟩

/-- The eviction pass (synthesizer.py lines 241-247):
`while db.get_size() > max_cache_bytes and db.get_num_files() > 1`,
remove the least-recently-used row and its backing file, re-checking
the budget each iteration.  Fuel-based recursion; fuel at least the
table length always suffices since every iteration removes a row. -/
def evictLoop (maxBytes : Nat) : Nat → Table → Disk → Table × Disk
  | 0, t, d => (t, d)
  | fuel+1, t, d =>
    if dbGetSize t > maxBytes ∧ dbGetNumFiles t > 1 then
      match selectLRU t with
      | some e => evictLoop maxBytes fuel (dbRemoveFile t d e.file).1 (dbRemoveFile t d e.file).2
      | none => (t, d)
    else (t, d)

/-- The MISS branch of `_call_engine` (lines 226-247): call the engine
on the derived path; on an engine `Exception` or an empty `Audio File`
persist nothing; otherwise read the produced file's size (raising when
it does not exist), insert the row, and run the eviction pass.  The
second component is `Except.error` exactly when Python raises out of
`_call_engine`. -/
def missBranch (eng : EngineFn) (maxBytes : Nat) (kw : Request) (hash : String)
    (now : Nat) (t : Table) (d : Disk) (clock : Nat) :
    CState × Except String EngResult :=
  let path := "/tmp/voice_" ++ hash
  let call := eng { kw with output_path := some path } d
  let d1 := call.1
  let r := call.2
  match r.exc with
  | some _ => (⟨t, d1, clock⟩, .ok r)
  | none =>
    if r.audioFile = "" then (⟨t, d1, clock⟩, .ok r)
    else
      match diskSize d1 r.audioFile with
      | none => (⟨t, d1, clock⟩, .error "getsize: no such file")
      | some sz =>
        let t1 := dbInsert t ⟨hash, r.audioFile, r.audioType, now, sz⟩
        let td := evictLoop maxBytes t1.length t1 d1
        (⟨td.1, td.2, clock⟩, .ok r)

/-- `_call_engine` (lines 179-251).  With an explicit `output_path` the
engine is called directly and the store untouched.  Otherwise: derive
key and path, look the key up; on a hit with the file present, touch the
row and answer from the cache with an empty provider-metadata field; on
a stale hit remove the row first (self-heal); then on a miss run
`missBranch`. -/
def callEngine (eng : EngineFn) (maxBytes : Nat) (kw : Request) (s : CState) :
    CState × Except String EngResult :=
  match kw.output_path with
  | some _ =>
    let call := eng kw s.disk
    (⟨s.table, call.1, s.clock⟩, .ok call.2)
  | none =>
    let hash := cacheHash kw
    let now := s.clock
    match dbFind s.table hash with
    | some e =>
      if diskExists s.disk e.file then
        (⟨dbTouch s.table hash now, s.disk, s.clock⟩,
         .ok ⟨e.file, e.audio_type, "", none⟩)
      else
        let td := dbRemoveFile s.table s.disk e.file
        missBranch eng maxBytes kw hash now td.1 td.2 s.clock
    | none => missBranch eng maxBytes kw hash now s.table s.disk s.clock

/-- Serialization of a response document back into the `result` string
(`json.dumps` of the fields, here a fixed concrete rendering). -/
def serializeResult (r : EngResult) : String :=
  "(Audio File: " ++ r.audioFile ++
  ", Audio Type: " ++ r.audioType ++
  ", Amazon Polly Response Metadata: " ++ r.pollyMeta ++
  (match r.exc with
   | some e => ", Exception: " ++ e
   | none => "") ++ ")"

/-- `_node_request_handler` (lines 269-284): parse, call the engine,
serialize; any raise is caught and turned into a response string
carrying the `Exception: ` marker.  The clock advances by one between
requests. -/
def nodeRequestHandler (eng : EngineFn) (maxBytes : Nat) (raw : RawRequest)
    (s : CState) : CState × String :=
  match parseRequestOrRaise raw with
  | .error e => (⟨s.table, s.disk, s.clock + 1⟩, "Exception: " ++ e)
  | .ok kws =>
    match callEngine eng maxBytes kws s with
    | (s1, .ok r) => (⟨s1.table, s1.disk, s1.clock + 1⟩, serializeResult r)
    | (s1, .error e) => (⟨s1.table, s1.disk, s1.clock + 1⟩, "Exception: " ++ e)

/-- A sequence of service requests handled one after the other. -/
def runRequests (eng : EngineFn) (maxBytes : Nat) (rs : List RawRequest)
    (s : CState) : CState :=
  rs.foldl (fun st r => (nodeRequestHandler eng maxBytes r st).1) s

/-- A plain-text request with no metadata, as the unit tests issue. -/
def plainReq (s : String) : RawRequest := ⟨s, RawMeta.absent⟩

/-- The canonical parameters of a plain-text request. -/
def plainKw (s : String) : Request := canonicalize emptyMeta s

/-- The test-double engine, connected, producing 100-byte files
(`speech_synthesizer.engine.set_file_sizes(100)`). -/
def dummy100 : EngineFn := dummyEngine ⟨true, 100⟩

/-- Five sequential novel plain requests. -/
def fiveNovel : List RawRequest :=
  [plainReq "t1", plainReq "t2", plainReq "t3", plainReq "t4", plainReq "t5"]

/-- A sixth novel request after the five. -/
def sixNovel : List RawRequest := fiveNovel ++ [plainReq "t6"]

/-- Four novel requests, a re-access of the first, then a fifth novel
request that overflows the 401-byte budget. -/
def reaccessSeq : List RawRequest :=
  [plainReq "a", plainReq "b", plainReq "c", plainReq "d", plainReq "a", plainReq "e"]

/-- The same five novel requests with no re-access of the first. -/
def noReaccessSeq : List RawRequest :=
  [plainReq "a", plainReq "b", plainReq "c", plainReq "d", plainReq "e"]

/-- The canonical parameters of the plain request "hello". -/
def helloKw : Request := plainKw "hello"

/-- A state holding one cached entry for "hello" whose backing file is
absent from the disk (deleted out-of-band). -/
def staleHelloState : CState :=
  ⟨[⟨cacheHash helloKw, derivedPath helloKw, "ogg_vorbis", 0, 50000⟩], [], 5⟩

/-- The test-double engine set to act disconnected. -/
def disconnectedEngine : EngineFn := dummyEngine ⟨false, 50000⟩

/-- The bounded-residency invariant: the live entries fit the budget,
or exactly one entry remains. -/
def boundedInv (maxBytes : Nat) (t : Table) : Prop :=
  dbGetSize t ≤ maxBytes ∨ dbGetNumFiles t = 1

/-! ## General lemmas about the store and the eviction loop -/

theorem serialize_ne_error_marker (r : EngResult) (rest : String) :
    serializeResult r ≠ "Exception: " ++ rest := by
  intro h
  have h2 := congrArg String.data h
  rw [serializeResult] at h2
  simp only [String.data_append] at h2
  simp only [List.cons_append] at h2
  exact absurd (List.head_eq_of_cons_eq h2) (by decide)

theorem voice_path_ne_empty (x : String) : "/tmp/voice_" ++ x ≠ "" := by
  intro h
  have h2 := congrArg String.data h
  simp [String.data_append] at h2

theorem dbGetSize_append_single (t : Table) (e : Entry) :
    dbGetSize (t ++ [e]) = dbGetSize t + e.size := by
  simp [dbGetSize]

theorem dbGetSize_filter_le (t : Table) (p : Entry → Bool) :
    dbGetSize (t.filter p) ≤ dbGetSize t := by
  induction t with
  | nil => exact Nat.le_refl _
  | cons a as ih =>
    simp only [List.filter_cons]
    by_cases h : p a
    · simp only [h, if_true]
      simp only [dbGetSize, List.map_cons, List.sum_cons] at ih ⊢
      omega
    · simp only [h, Bool.false_eq_true, if_false]
      simp only [dbGetSize, List.map_cons, List.sum_cons] at ih ⊢
      omega

theorem dbGetNumFiles_touch (t : Table) (h : String) (now : Nat) :
    dbGetNumFiles (dbTouch t h now) = dbGetNumFiles t := by
  simp [dbGetNumFiles, dbTouch]

theorem dbGetSize_touch (t : Table) (h : String) (now : Nat) :
    dbGetSize (dbTouch t h now) = dbGetSize t := by
  induction t with
  | nil => rfl
  | cons a as ih =>
    by_cases hh : a.hash = h <;>
      simp only [dbGetSize, dbTouch, List.map_cons, List.sum_cons, List.map_map] at ih ⊢ <;>
      simp [hh, ih]

theorem evictLoop_of_le (maxBytes fuel : Nat) (t : Table) (d : Disk)
    (h : dbGetSize t ≤ maxBytes) : evictLoop maxBytes fuel t d = (t, d) := by
  cases fuel with
  | zero => rfl
  | succ n =>
    have hn : ¬(dbGetSize t > maxBytes ∧ dbGetNumFiles t > 1) := by
      intro hc
      exact absurd hc.1 (Nat.not_lt.mpr h)
    simp [evictLoop, hn]

theorem find_append_singleton {p : Entry → Bool} {l : List Entry} {x : Entry}
    (hl : l.find? p = none) (hx : p x = true) :
    (l ++ [x]).find? p = some x := by
  rw [List.find?_append, hl]
  simp [List.find?, hx]

theorem diskSize_write_self (d : Disk) (p : String) (sz : Nat) :
    diskSize (diskWrite d p sz) p = some sz := by
  simp [diskSize, diskWrite, List.find?]

theorem diskExists_write_self (d : Disk) (p : String) (sz : Nat) :
    diskExists (diskWrite d p sz) p = true := by
  simp [diskExists, diskWrite, List.find?]

theorem dummyEngine_connected (fsz : Nat) (r : Request) (d : Disk) (p : String)
    (hp : r.output_path = some p) :
    dummyEngine ⟨true, fsz⟩ r d =
      (diskWrite d p fsz, ⟨p, "ogg_vorbis", "(some header: some data)", none⟩) := by
  simp [dummyEngine, hp]

theorem callEngine_miss (eng : EngineFn) (maxBytes : Nat) (kw : Request) (s : CState)
    (hop : kw.output_path = none)
    (hfind : dbFind s.table (cacheHash kw) = none) :
    callEngine eng maxBytes kw s =
      missBranch eng maxBytes kw (cacheHash kw) s.clock s.table s.disk s.clock := by
  simp [callEngine, hop, hfind]

theorem callEngine_selfheal (eng : EngineFn) (maxBytes : Nat) (kw : Request)
    (s : CState) (e : Entry)
    (hop : kw.output_path = none)
    (hfind : dbFind s.table (cacheHash kw) = some e)
    (hmiss : diskExists s.disk e.file = false) :
    callEngine eng maxBytes kw s =
      missBranch eng maxBytes kw (cacheHash kw) s.clock
        (s.table.filter (fun x => x.file ≠ e.file)) (diskDelete s.disk e.file) s.clock := by
  simp [callEngine, hop, hfind, hmiss, dbRemoveFile]

theorem callEngine_hit (eng : EngineFn) (maxBytes : Nat) (kw : Request)
    (s : CState) (e : Entry)
    (hop : kw.output_path = none)
    (hfind : dbFind s.table (cacheHash kw) = some e)
    (hdisk : diskExists s.disk e.file = true) :
    callEngine eng maxBytes kw s =
      (⟨dbTouch s.table (cacheHash kw) s.clock, s.disk, s.clock⟩,
       .ok ⟨e.file, e.audio_type, "", none⟩) := by
  simp [callEngine, hop, hfind, hdisk]

theorem missBranch_success (eng : EngineFn) (maxBytes : Nat) (kw : Request)
    (hash : String) (now : Nat) (t : Table) (d d' : Disk) (clock sz : Nat)
    (aty pm : String)
    (heng : eng { kw with output_path := some ("/tmp/voice_" ++ hash) } d =
      (d', ⟨"/tmp/voice_" ++ hash, aty, pm, none⟩))
    (hd' : diskSize d' ("/tmp/voice_" ++ hash) = some sz)
    (hbound : dbGetSize (t ++ [⟨hash, "/tmp/voice_" ++ hash, aty, now, sz⟩]) ≤ maxBytes) :
    missBranch eng maxBytes kw hash now t d clock =
      (⟨t ++ [⟨hash, "/tmp/voice_" ++ hash, aty, now, sz⟩], d', clock⟩,
       .ok ⟨"/tmp/voice_" ++ hash, aty, pm, none⟩) := by
  have hpath := voice_path_ne_empty hash
  simp [missBranch, heng, hpath, hd', dbInsert,
    evictLoop_of_le maxBytes _ _ d' hbound]

theorem length_filter_file_lt (t : Table) (e : Entry) (he : e ∈ t) :
    (t.filter (fun x => x.file ≠ e.file)).length < t.length := by
  induction t with
  | nil => cases he
  | cons a as ih =>
    simp only [List.filter_cons]
    by_cases hf : (a.file ≠ e.file : Prop)
    · have hd : decide (a.file ≠ e.file) = true := by simp [hf]
      rw [hd, if_pos rfl]
      have hmem : e ∈ as := by
        rcases List.mem_cons.mp he with h | h
        · subst h
          exact absurd rfl hf
        · exact h
      simpa [List.length_cons] using Nat.succ_lt_succ (ih hmem)
    · have hd : decide (a.file ≠ e.file) = false := by
        simpa using Decidable.not_not.mp hf
      rw [hd]
      simp only [Bool.false_eq_true, if_false, List.length_cons]
      have := List.length_filter_le (fun x => decide (x.file ≠ e.file)) as
      omega

theorem foldl_lru_mem (as : List Entry) : ∀ (a : Entry),
    (as.foldl (fun acc x => if x.last_accessed < acc.last_accessed then x else acc) a)
      ∈ a :: as := by
  induction as with
  | nil =>
    intro a
    simp
  | cons b bs ih =>
    intro a
    simp only [List.foldl_cons]
    by_cases h : b.last_accessed < a.last_accessed
    · rw [if_pos h]
      exact List.mem_cons_of_mem a (ih b)
    · rw [if_neg h]
      rcases List.mem_cons.mp (ih a) with h3 | h3
      · rw [h3]
        exact List.mem_cons_self a (b :: bs)
      · exact List.mem_cons_of_mem a (List.mem_cons_of_mem b h3)

theorem selectLRU_mem (t : Table) (e : Entry) (h : selectLRU t = some e) : e ∈ t := by
  cases t with
  | nil => cases h
  | cons a as =>
    simp only [selectLRU, Option.some.injEq] at h
    rw [← h]
    exact foldl_lru_mem as a

theorem foldl_lru_le (as : List Entry) : ∀ (a y : Entry), y ∈ a :: as →
    (as.foldl (fun acc x => if x.last_accessed < acc.last_accessed then x else acc)
      a).last_accessed ≤ y.last_accessed := by
  induction as with
  | nil =>
    intro a y hy
    rcases List.mem_cons.mp hy with h | h
    · subst h
      simp
    · cases h
  | cons b bs ih =>
    intro a y hy
    simp only [List.foldl_cons]
    by_cases h : b.last_accessed < a.last_accessed
    · rw [if_pos h]
      rcases List.mem_cons.mp hy with h2 | h2
      · rw [h2]
        have h3 := ih b b (List.mem_cons_self b bs)
        omega
      · exact ih b y h2
    · rw [if_neg h]
      rcases List.mem_cons.mp hy with h2 | h2
      · rw [h2]
        exact ih a a (List.mem_cons_self a bs)
      · rcases List.mem_cons.mp h2 with h3 | h3
        · rw [h3]
          have h4 := ih a a (List.mem_cons_self a bs)
          omega
        · exact ih a y (List.mem_cons_of_mem a h3)

theorem selectLRU_min (t : Table) (e : Entry) (h : selectLRU t = some e) :
    ∀ y ∈ t, e.last_accessed ≤ y.last_accessed := by
  cases t with
  | nil => cases h
  | cons a as =>
    simp only [selectLRU, Option.some.injEq] at h
    intro y hy
    rw [← h]
    exact foldl_lru_le as a y hy

theorem evictLoop_bound (maxBytes : Nat) :
    ∀ (fuel : Nat) (t : Table) (d : Disk), t.length ≤ fuel →
      dbGetSize (evictLoop maxBytes fuel t d).1 ≤ maxBytes ∨
      (evictLoop maxBytes fuel t d).1.length ≤ 1 := by
  intro fuel
  induction fuel with
  | zero =>
    intro t d hle
    have ht : t = [] := List.length_eq_zero.mp (Nat.le_zero.mp hle)
    subst ht
    right
    simp [evictLoop]
  | succ n ih =>
    intro t d hle
    by_cases hc : dbGetSize t > maxBytes ∧ dbGetNumFiles t > 1
    · obtain ⟨e, he⟩ : ∃ e, selectLRU t = some e := by
        cases t with
        | nil => simp [dbGetNumFiles] at hc
        | cons a as => exact ⟨_, rfl⟩
      have hmem := selectLRU_mem t e he
      have hlt := length_filter_file_lt t e hmem
      have hle2 : (t.filter (fun x => x.file ≠ e.file)).length ≤ n := by omega
      have h2 := ih (t.filter (fun x => x.file ≠ e.file)) (diskDelete d e.file) hle2
      simpa [evictLoop, hc, he, dbRemoveFile] using h2
    · have hstop : evictLoop maxBytes (n+1) t d = (t, d) := by
        simp [evictLoop, hc]
      rw [hstop]
      rcases not_and_or.mp hc with h | h
      · exact Or.inl (Nat.not_lt.mp h)
      · exact Or.inr (Nat.not_lt.mp h)

theorem boundedInv_filter (maxBytes : Nat) (t : Table) (p : Entry → Bool)
    (hinv : boundedInv maxBytes t) : boundedInv maxBytes (t.filter p) := by
  rcases hinv with h | h
  · exact Or.inl (le_trans (dbGetSize_filter_le t p) h)
  · have h2 := List.length_filter_le p t
    rw [dbGetNumFiles] at h
    rcases Nat.le_one_iff_eq_zero_or_eq_one.mp (le_trans h2 (le_of_eq h)) with h0 | h1
    · left
      have hnil : t.filter p = [] := List.length_eq_zero.mp h0
      rw [dbGetSize, hnil]
      exact Nat.zero_le _
    · exact Or.inr h1

theorem evictLoop_boundedInv (maxBytes : Nat) (t : Table) (d : Disk) :
    boundedInv maxBytes (evictLoop maxBytes t.length t d).1 := by
  rcases evictLoop_bound maxBytes t.length t d (Nat.le_refl _) with h | h
  · exact Or.inl h
  · rcases Nat.le_one_iff_eq_zero_or_eq_one.mp h with h0 | h1
    · left
      rw [dbGetSize, List.length_eq_zero.mp h0]
      exact Nat.zero_le _
    · exact Or.inr h1

theorem missBranch_inv (eng : EngineFn) (maxBytes : Nat) (kw : Request) (hash : String)
    (now : Nat) (t : Table) (d : Disk) (clock : Nat)
    (hinv : boundedInv maxBytes t) :
    boundedInv maxBytes (missBranch eng maxBytes kw hash now t d clock).1.table := by
  simp only [missBranch]
  generalize eng { kw with output_path := some ("/tmp/voice_" ++ hash) } d = call
  obtain ⟨d1, r⟩ := call
  cases hx : r.exc with
  | some m =>
    simp only [hx]
    exact hinv
  | none =>
    simp only [hx]
    by_cases hf : r.audioFile = ""
    · simp only [hf, if_pos rfl]
      exact hinv
    · rw [if_neg hf]
      cases hs : diskSize d1 r.audioFile with
      | none =>
        simp only [hs]
        exact hinv
      | some sz =>
        simp only [hs]
        exact evictLoop_boundedInv maxBytes
          (dbInsert t ⟨hash, r.audioFile, r.audioType, now, sz⟩) d1

theorem callEngine_inv (eng : EngineFn) (maxBytes : Nat) (kw : Request) (s : CState)
    (hinv : boundedInv maxBytes s.table) :
    boundedInv maxBytes (callEngine eng maxBytes kw s).1.table := by
  rcases hop : kw.output_path with _ | p
  · rcases hfind : dbFind s.table (cacheHash kw) with _ | e
    · rw [callEngine_miss eng maxBytes kw s hop hfind]
      exact missBranch_inv _ _ _ _ _ _ _ _ hinv
    · cases hd : diskExists s.disk e.file with
      | true =>
        rw [callEngine_hit eng maxBytes kw s e hop hfind hd]
        rcases hinv with h | h
        · left
          rw [show (⟨dbTouch s.table (cacheHash kw) s.clock, s.disk, s.clock⟩ :
            CState).table = dbTouch s.table (cacheHash kw) s.clock from rfl,
            dbGetSize_touch]
          exact h
        · right
          rw [show (⟨dbTouch s.table (cacheHash kw) s.clock, s.disk, s.clock⟩ :
            CState).table = dbTouch s.table (cacheHash kw) s.clock from rfl,
            dbGetNumFiles_touch]
          exact h
      | false =>
        rw [callEngine_selfheal eng maxBytes kw s e hop hfind hd]
        exact missBranch_inv _ _ _ _ _ _ _ _
          (boundedInv_filter _ _ _ hinv)
  · simp only [callEngine, hop]
    exact hinv

theorem nodeRequestHandler_inv (eng : EngineFn) (maxBytes : Nat) (raw : RawRequest)
    (s : CState) (hinv : boundedInv maxBytes s.table) :
    boundedInv maxBytes (nodeRequestHandler eng maxBytes raw s).1.table := by
  unfold nodeRequestHandler
  rcases hp : parseRequestOrRaise raw with e | kws
  · exact hinv
  · have h2 := callEngine_inv eng maxBytes kws s hinv
    rcases hc : callEngine eng maxBytes kws s with ⟨s1, r⟩
    rw [hc] at h2
    simp only [hc]
    rcases r with e | r
    · exact h2
    · exact h2

theorem runRequests_inv (eng : EngineFn) (maxBytes : Nat) (rs : List RawRequest) :
    ∀ (s : CState), boundedInv maxBytes s.table →
      boundedInv maxBytes (runRequests eng maxBytes rs s).table := by
  induction rs with
  | nil =>
    intro s hinv
    exact hinv
  | cons r rest ih =>
    intro s hinv
    exact ih _ (nodeRequestHandler_inv eng maxBytes r s hinv)

/-! ## C7, C9, C10: branch-shape facts about `_call_engine` -/

/-- C7: a request carrying an explicit output path invokes the engine on
the caller's keyword set (hence the caller-specified path), returns the
engine's result directly, and leaves the whole store state (the cache
table) unchanged: no entry is created, touched, or removed and no
eviction pass runs. -/
theorem direct_request_bypasses_store (eng : EngineFn) (maxBytes : Nat)
    (kw : Request) (s : CState) (p : String) (hp : kw.output_path = some p) :
    (callEngine eng maxBytes kw s).1.table = s.table ∧
    (callEngine eng maxBytes kw s).2 = .ok (eng kw s.disk).2 ∧
    (callEngine eng maxBytes kw s).1.disk = (eng kw s.disk).1 := by
  simp [callEngine, hp]

theorem direct_request_bypasses_store_witness :
    ({ plainKw "hi" with output_path := some "/tmp/test" } : Request).output_path
      = some "/tmp/test" ∧
    (callEngine dummy100 401 { plainKw "hi" with output_path := some "/tmp/test" }
        initState).1.table = initState.table := by
  refine ⟨rfl, ?_⟩
  exact (direct_request_bypasses_store dummy100 401
    { plainKw "hi" with output_path := some "/tmp/test" } initState "/tmp/test" rfl).1

/-- C9: on a cache hit (entry found for the key, backing file present)
the response carries the cached file path and audio type but an empty
provider-metadata field, for every engine and budget; the entry is
touched to the current time.  In contrast, the connected test-double
engine's miss response always carries a fixed non-empty provider
metadata, so a hit response is not byte-identical to the miss response
that populated the entry. -/
theorem hit_response_blank_metadata (eng : EngineFn) (maxBytes : Nat)
    (kw : Request) (s : CState) (e : Entry)
    (hop : kw.output_path = none)
    (hfind : dbFind s.table (cacheHash kw) = some e)
    (hdisk : diskExists s.disk e.file = true) :
    (callEngine eng maxBytes kw s).2 = .ok ⟨e.file, e.audio_type, "", none⟩ ∧
    (callEngine eng maxBytes kw s).1.table = dbTouch s.table (cacheHash kw) s.clock ∧
    (∀ de : DummyEngine, de.connected = true → ∀ r d,
      ((dummyEngine de) r d).2.pollyMeta = "(some header: some data)") ∧
    "(some header: some data)" ≠ ("" : String) := by
  refine ⟨?_, ?_, ?_, by decide⟩
  · simp [callEngine, hop, hfind, hdisk]
  · simp [callEngine, hop, hfind, hdisk]
  · intro de hc r d
    simp [dummyEngine, hc]

theorem hit_response_blank_metadata_witness :
    (callEngine dummy100 401 (plainKw "w")
        ⟨[⟨cacheHash (plainKw "w"), derivedPath (plainKw "w"), "ogg_vorbis", 0, 100⟩],
         [(derivedPath (plainKw "w"), 100)], 3⟩).2 =
      .ok ⟨derivedPath (plainKw "w"), "ogg_vorbis", "", none⟩ :=
  (hit_response_blank_metadata dummy100 401 (plainKw "w")
    ⟨[⟨cacheHash (plainKw "w"), derivedPath (plainKw "w"), "ogg_vorbis", 0, 100⟩],
     [(derivedPath (plainKw "w"), 100)], 3⟩
    ⟨cacheHash (plainKw "w"), derivedPath (plainKw "w"), "ogg_vorbis", 0, 100⟩
    rfl (by decide) (by decide)).1

/-- C10: on a cache miss where the engine result carries no `Exception`
but an empty `Audio File`, nothing is inserted, no eviction pass runs
(the table is returned unchanged), and the engine's result is still
returned to the caller as a success. -/
theorem empty_audio_file_no_insert (eng : EngineFn) (maxBytes : Nat)
    (kw : Request) (s : CState)
    (hop : kw.output_path = none)
    (hfind : dbFind s.table (cacheHash kw) = none)
    (hexc : (eng { kw with output_path := some (derivedPath kw) } s.disk).2.exc = none)
    (hempty : (eng { kw with output_path := some (derivedPath kw) } s.disk).2.audioFile = "") :
    (callEngine eng maxBytes kw s).1.table = s.table ∧
    (callEngine eng maxBytes kw s).2 =
      .ok (eng { kw with output_path := some (derivedPath kw) } s.disk).2 := by
  simp only [derivedPath] at hexc hempty
  simp [callEngine, hop, hfind, missBranch, hexc, hempty, derivedPath]

theorem empty_audio_file_no_insert_witness :
    (callEngine (fun _ d => (d, ⟨"", "none", "none", none⟩)) 401 (plainKw "w")
        initState).1.table = initState.table :=
  (empty_audio_file_no_insert (fun _ d => (d, ⟨"", "none", "none", none⟩)) 401
    (plainKw "w") initState rfl rfl rfl rfl).1

/-- C3: idempotent repeat.  A novel request (key absent) with no
explicit output path, served by the connected test double within
budget, inserts exactly one entry whose file is the derived path; the
identical request issued next (same canonical parameters, hence the
same cache key) is answered from the cache with the same file path —
for every engine, i.e. without invoking the synthesis engine — and
leaves the entry count at its incremented value (one more than before
the pair, not two). -/
theorem idempotent_repeat (fsz maxBytes : Nat) (kw : Request) (s s1 : CState)
    (hop : kw.output_path = none)
    (hfind : dbFind s.table (cacheHash kw) = none)
    (hbudget : dbGetSize s.table + fsz ≤ maxBytes)
    (hs1 : s1 = ⟨(callEngine (dummyEngine ⟨true, fsz⟩) maxBytes kw s).1.table,
                 (callEngine (dummyEngine ⟨true, fsz⟩) maxBytes kw s).1.disk,
                 s.clock + 1⟩) :
    (callEngine (dummyEngine ⟨true, fsz⟩) maxBytes kw s).2 =
      .ok ⟨derivedPath kw, "ogg_vorbis", "(some header: some data)", none⟩ ∧
    (callEngine (dummyEngine ⟨true, fsz⟩) maxBytes kw s).1.table =
      s.table ++ [⟨cacheHash kw, derivedPath kw, "ogg_vorbis", s.clock, fsz⟩] ∧
    (∀ eng2 : EngineFn,
      (callEngine eng2 maxBytes kw s1).2 =
        .ok ⟨derivedPath kw, "ogg_vorbis", "", none⟩ ∧
      dbGetNumFiles (callEngine eng2 maxBytes kw s1).1.table =
        dbGetNumFiles s.table + 1) := by
  simp only [derivedPath] at hs1 ⊢
  have heng := dummyEngine_connected fsz
    { kw with output_path := some ("/tmp/voice_" ++ cacheHash kw) } s.disk
    ("/tmp/voice_" ++ cacheHash kw) rfl
  have hbound : dbGetSize (s.table ++
      [⟨cacheHash kw, "/tmp/voice_" ++ cacheHash kw, "ogg_vorbis", s.clock, fsz⟩])
      ≤ maxBytes := by
    rw [dbGetSize_append_single]
    exact hbudget
  have hmain := missBranch_success (dummyEngine ⟨true, fsz⟩) maxBytes kw
    (cacheHash kw) s.clock s.table s.disk
    (diskWrite s.disk ("/tmp/voice_" ++ cacheHash kw) fsz) s.clock fsz
    "ogg_vorbis" "(some header: some data)" heng
    (diskSize_write_self s.disk ("/tmp/voice_" ++ cacheHash kw) fsz) hbound
  rw [callEngine_miss (dummyEngine ⟨true, fsz⟩) maxBytes kw s hop hfind, hmain]
  refine ⟨rfl, rfl, ?_⟩
  intro eng2
  have hfind2 : dbFind s1.table (cacheHash kw) =
      some ⟨cacheHash kw, "/tmp/voice_" ++ cacheHash kw, "ogg_vorbis", s.clock, fsz⟩ := by
    rw [hs1]
    simp only [callEngine_miss (dummyEngine ⟨true, fsz⟩) maxBytes kw s hop hfind, hmain]
    exact find_append_singleton hfind (by simp)
  have hdisk2 : diskExists s1.disk
      ("/tmp/voice_" ++ cacheHash kw) = true := by
    rw [hs1]
    simp only [callEngine_miss (dummyEngine ⟨true, fsz⟩) maxBytes kw s hop hfind, hmain]
    exact diskExists_write_self _ _ _
  rw [callEngine_hit eng2 maxBytes kw s1
    ⟨cacheHash kw, "/tmp/voice_" ++ cacheHash kw, "ogg_vorbis", s.clock, fsz⟩
    hop hfind2 hdisk2]
  refine ⟨rfl, ?_⟩
  rw [dbGetNumFiles_touch, hs1]
  simp only [callEngine_miss (dummyEngine ⟨true, fsz⟩) maxBytes kw s hop hfind, hmain]
  simp [dbGetNumFiles]

theorem idempotent_repeat_witness :
    (callEngine dummy100 401 (plainKw "w")
        ⟨(callEngine (dummyEngine ⟨true, 100⟩) 401 (plainKw "w") initState).1.table,
         (callEngine (dummyEngine ⟨true, 100⟩) 401 (plainKw "w") initState).1.disk,
         initState.clock + 1⟩).2 =
      .ok ⟨derivedPath (plainKw "w"), "ogg_vorbis", "", none⟩ :=
  ((idempotent_repeat 100 401 (plainKw "w") initState
    ⟨(callEngine (dummyEngine ⟨true, 100⟩) 401 (plainKw "w") initState).1.table,
     (callEngine (dummyEngine ⟨true, 100⟩) 401 (plainKw "w") initState).1.disk,
     initState.clock + 1⟩ rfl rfl (by decide) rfl).2.2 dummy100).1

/-- C6: a request whose metadata is present but not parseable as JSON
never raises past the handler: it yields a response prefixed with the
`Exception: ` marker, no success serialization ever carries that
marker, and neither the cache table nor the disk is touched. -/
theorem malformed_metadata_error_response (eng : EngineFn) (maxBytes : Nat)
    (text err : String) (s : CState) :
    (nodeRequestHandler eng maxBytes ⟨text, .malformed err⟩ s).1.table = s.table ∧
    (nodeRequestHandler eng maxBytes ⟨text, .malformed err⟩ s).1.disk = s.disk ∧
    (nodeRequestHandler eng maxBytes ⟨text, .malformed err⟩ s).2 = "Exception: " ++ err ∧
    ∀ (r : EngResult) (rest : String), serializeResult r ≠ "Exception: " ++ rest := by
  refine ⟨?_, ?_, ?_, serialize_ne_error_marker⟩ <;>
    simp [nodeRequestHandler, parseRequestOrRaise]

/-- C8: with a 401-byte budget and 100-byte files, five sequential
novel requests leave exactly four entries, the very first produced file
is gone from the disk and its row is gone from the table; a sixth novel
request still leaves exactly four entries. -/
theorem cache_401_scenario :
    dbGetNumFiles (runRequests dummy100 401 fiveNovel initState).table = 4 ∧
    diskExists (runRequests dummy100 401 fiveNovel initState).disk
      (derivedPath (plainKw "t1")) = false ∧
    dbFind (runRequests dummy100 401 fiveNovel initState).table
      (cacheHash (plainKw "t1")) = none ∧
    dbGetNumFiles (runRequests dummy100 401 sixNovel initState).table = 4 := by
  decide

/-- C5 counterexample: with the test double disconnected and a state
holding exactly one cached entry whose backing file is missing, the
request self-heals (removing the entry), the engine failure descriptor
is returned, and the entry count drops from 1 to 0 — it is not
unchanged as the claim states for self-healed keys. -/
theorem engine_failure_selfheal_count_drops :
    dbGetNumFiles staleHelloState.table = 1 ∧
    dbFind staleHelloState.table (cacheHash helloKw) =
      some ⟨cacheHash helloKw, derivedPath helloKw, "ogg_vorbis", 0, 50000⟩ ∧
    diskExists staleHelloState.disk (derivedPath helloKw) = false ∧
    (callEngine disconnectedEngine 100000000 helloKw staleHelloState).2 =
      .ok ⟨connErrorFile, "ogg", "", some "(dummy head: dummy val)"⟩ ∧
    dbGetNumFiles
      (callEngine disconnectedEngine 100000000 helloKw staleHelloState).1.table = 0 := by
  decide

/-- C5 amended: when the engine reports failure on a cache miss, the
failure descriptor is returned verbatim, nothing is inserted and no
eviction runs; the table is unchanged for a novel key, while for a
previously-cached key whose file is missing the table is exactly the
self-healed table (the stale row removed before the engine call), so
the count drops by the healed row rather than staying unchanged. -/
theorem engine_failure_no_persist (eng : EngineFn) (maxBytes : Nat)
    (kw : Request) (s : CState) (m : String)
    (hop : kw.output_path = none) :
    (dbFind s.table (cacheHash kw) = none →
     (eng { kw with output_path := some (derivedPath kw) } s.disk).2.exc = some m →
     (callEngine eng maxBytes kw s).1.table = s.table ∧
     (callEngine eng maxBytes kw s).2 =
       .ok (eng { kw with output_path := some (derivedPath kw) } s.disk).2) ∧
    (∀ e : Entry, dbFind s.table (cacheHash kw) = some e →
     diskExists s.disk e.file = false →
     (eng { kw with output_path := some (derivedPath kw) }
        (diskDelete s.disk e.file)).2.exc = some m →
     (callEngine eng maxBytes kw s).1.table =
       s.table.filter (fun x => x.file ≠ e.file) ∧
     (callEngine eng maxBytes kw s).2 =
       .ok (eng { kw with output_path := some (derivedPath kw) }
             (diskDelete s.disk e.file)).2) := by
  constructor
  · intro hfind hexc
    simp only [derivedPath] at hexc
    simp [callEngine, hop, hfind, missBranch, hexc, derivedPath]
  · intro e hfind hmiss hexc
    simp only [derivedPath] at hexc
    simp [callEngine, hop, hfind, hmiss, missBranch, dbRemoveFile, hexc, derivedPath]

theorem evictLoop_subset (maxBytes : Nat) :
    ∀ (fuel : Nat) (t : Table) (d : Disk) (x : Entry),
      x ∈ (evictLoop maxBytes fuel t d).1 → x ∈ t := by
  intro fuel
  induction fuel with
  | zero =>
    intro t d x hx
    simpa [evictLoop] using hx
  | succ n ih =>
    intro t d x hx
    by_cases hc : dbGetSize t > maxBytes ∧ dbGetNumFiles t > 1
    · rcases he : selectLRU t with _ | e
      · rw [show evictLoop maxBytes (n+1) t d = (t, d) from by
          simp [evictLoop, hc, he]] at hx
        exact hx
      · rw [show evictLoop maxBytes (n+1) t d = evictLoop maxBytes n
            (dbRemoveFile t d e.file).1 (dbRemoveFile t d e.file).2 from by
          simp [evictLoop, hc, he]] at hx
        have h2 := ih _ _ x hx
        simp only [dbRemoveFile] at h2
        exact List.mem_of_mem_filter h2
    · rw [show evictLoop maxBytes (n+1) t d = (t, d) from by
        simp [evictLoop, hc]] at hx
      exact hx

theorem evictLoop_lru_order (maxBytes : Nat) :
    ∀ (fuel : Nat) (t : Table) (d : Disk) (A B : Entry),
      A ∈ t → B ∈ t → A.last_accessed < B.last_accessed →
      t.Pairwise (fun x y => x.file ≠ y.file) →
      B ∉ (evictLoop maxBytes fuel t d).1 →
      A ∉ (evictLoop maxBytes fuel t d).1 := by
  intro fuel
  induction fuel with
  | zero =>
    intro t d A B hA hB hlt hpw hBout
    simp only [evictLoop] at hBout
    exact absurd hB hBout
  | succ n ih =>
    intro t d A B hA hB hlt hpw hBout
    by_cases hc : dbGetSize t > maxBytes ∧ dbGetNumFiles t > 1
    · rcases he : selectLRU t with _ | e
      · rw [show evictLoop maxBytes (n+1) t d = (t, d) from by
          simp [evictLoop, hc, he]] at hBout ⊢
        exact absurd hB hBout
      · have hred : evictLoop maxBytes (n+1) t d =
            evictLoop maxBytes n (t.filter (fun x => x.file ≠ e.file))
              (diskDelete d e.file) := by
          simp [evictLoop, hc, he, dbRemoveFile]
        rw [hred] at hBout ⊢
        have hemem := selectLRU_mem t e he
        have hmin := selectLRU_min t e he
        have hsym : Symmetric (fun x y : Entry => x.file ≠ y.file) := by
          intro x y hxy h2
          exact hxy h2.symm
        by_cases hAe : A = e
        · intro hAin
          have h2 := evictLoop_subset maxBytes n _ _ A hAin
          rw [List.mem_filter] at h2
          rcases h2 with ⟨h3, h4⟩
          rw [hAe] at h4
          simp at h4
        · have hAfile := List.Pairwise.forall hsym hpw hA hemem hAe
          have hBe : B ≠ e := by
            intro hbe
            have h5 := hmin A hA
            rw [hbe] at hlt
            omega
          have hBfile := List.Pairwise.forall hsym hpw hB hemem hBe
          have hAin : A ∈ t.filter (fun x => x.file ≠ e.file) := by
            rw [List.mem_filter]
            exact ⟨hA, by simpa using hAfile⟩
          have hBin : B ∈ t.filter (fun x => x.file ≠ e.file) := by
            rw [List.mem_filter]
            exact ⟨hB, by simpa using hBfile⟩
          exact ih _ _ A B hAin hBin hlt (List.Pairwise.filter _ hpw) hBout
    · rw [show evictLoop maxBytes (n+1) t d = (t, d) from by
        simp [evictLoop, hc]] at hBout ⊢
      exact absurd hB hBout

/-- C1: bounded residency.  For every engine, budget, and sequence of
service requests handled from the initial empty state, when the cache
manager returns the total of the recorded entry sizes fits the budget,
or exactly one entry remains (the last entry is never evicted). -/
theorem bounded_residency (eng : EngineFn) (maxBytes : Nat) (rs : List RawRequest) :
    dbGetSize (runRequests eng maxBytes rs initState).table ≤ maxBytes ∨
    dbGetNumFiles (runRequests eng maxBytes rs initState).table = 1 :=
  runRequests_inv eng maxBytes rs initState (Or.inl (Nat.zero_le _))

/-- C4: LRU correctness.  (i) The eviction pass removes entries
smallest-`last_accessed`-first: whenever entry B was evicted by a pass
and entry A was live with a strictly older access time (backing files
pairwise distinct), A was evicted too.  (ii) Concretely, with budget
401 and 100-byte files, re-accessing the first entry before the
overflowing insertion saves it: the never-reaccessed second entry is
evicted instead (row gone, file deleted), while without the re-access
the first entry is the one evicted. -/
theorem lru_eviction_order :
    (∀ (maxBytes fuel : Nat) (t : Table) (d : Disk) (A B : Entry),
      A ∈ t → B ∈ t → A.last_accessed < B.last_accessed →
      t.Pairwise (fun x y => x.file ≠ y.file) →
      B ∉ (evictLoop maxBytes fuel t d).1 →
      A ∉ (evictLoop maxBytes fuel t d).1) ∧
    dbFind (runRequests dummy100 401 reaccessSeq initState).table
      (cacheHash (plainKw "a")) ≠ none ∧
    dbFind (runRequests dummy100 401 reaccessSeq initState).table
      (cacheHash (plainKw "b")) = none ∧
    diskExists (runRequests dummy100 401 reaccessSeq initState).disk
      (derivedPath (plainKw "a")) = true ∧
    diskExists (runRequests dummy100 401 reaccessSeq initState).disk
      (derivedPath (plainKw "b")) = false ∧
    dbFind (runRequests dummy100 401 noReaccessSeq initState).table
      (cacheHash (plainKw "a")) = none := by
  refine ⟨fun maxBytes => evictLoop_lru_order maxBytes, ?_, ?_, ?_, ?_, ?_⟩ <;> decide

theorem lru_eviction_order_witness :
    (⟨"ha", "fa", "t", 0, 10⟩ : Entry) ∉ (evictLoop 0 3
      [⟨"ha", "fa", "t", 0, 10⟩, ⟨"hb", "fb", "t", 5, 10⟩,
       ⟨"hc", "fc", "t", 10, 10⟩] []).1 :=
  lru_eviction_order.1 0 3
    [⟨"ha", "fa", "t", 0, 10⟩, ⟨"hb", "fb", "t", 5, 10⟩, ⟨"hc", "fc", "t", 10, 10⟩]
    [] ⟨"ha", "fa", "t", 0, 10⟩ ⟨"hb", "fb", "t", 5, 10⟩
    (by decide) (by decide) (by decide) (by decide) (by decide)

/-- C2: self-heal.  For a cached entry whose backing file is gone, an
identical request removes the stale row before inserting, regenerates
the file at the same derived path, returns a success (no error
surfaces), re-caches under the same key, and — when no eviction is
needed and the stale row was the unique holder of its file and key —
leaves the entry count unchanged. -/
theorem self_heal_same_path (eng : EngineFn) (maxBytes : Nat)
    (kw : Request) (s : CState) (e : Entry) (sz : Nat) (aty pm : String)
    (hop : kw.output_path = none)
    (hfind : dbFind s.table (cacheHash kw) = some e)
    (hmiss : diskExists s.disk e.file = false)
    (heng : eng { kw with output_path := some (derivedPath kw) } (diskDelete s.disk e.file)
            = (diskWrite (diskDelete s.disk e.file) (derivedPath kw) sz,
               ⟨derivedPath kw, aty, pm, none⟩))
    (hlen : (s.table.filter (fun x => x.file ≠ e.file)).length + 1 = s.table.length)
    (huniq : ∀ x ∈ s.table, x.hash = cacheHash kw → x = e)
    (hbudget : dbGetSize s.table + sz ≤ maxBytes) :
    (callEngine eng maxBytes kw s).2 = .ok ⟨derivedPath kw, aty, pm, none⟩ ∧
    (callEngine eng maxBytes kw s).1.table =
      s.table.filter (fun x => x.file ≠ e.file) ++
        [⟨cacheHash kw, derivedPath kw, aty, s.clock, sz⟩] ∧
    dbGetNumFiles (callEngine eng maxBytes kw s).1.table = dbGetNumFiles s.table ∧
    dbFind (callEngine eng maxBytes kw s).1.table (cacheHash kw) =
      some ⟨cacheHash kw, derivedPath kw, aty, s.clock, sz⟩ ∧
    diskExists (callEngine eng maxBytes kw s).1.disk (derivedPath kw) = true := by
  simp only [derivedPath] at heng ⊢
  have hbound : dbGetSize (s.table.filter (fun x => x.file ≠ e.file) ++
      [⟨cacheHash kw, "/tmp/voice_" ++ cacheHash kw, aty, s.clock, sz⟩]) ≤ maxBytes := by
    rw [dbGetSize_append_single]
    have := dbGetSize_filter_le s.table (fun x => x.file ≠ e.file)
    simp only []
    omega
  rw [callEngine_selfheal eng maxBytes kw s e hop hfind hmiss,
    missBranch_success eng maxBytes kw (cacheHash kw) s.clock
      (s.table.filter (fun x => x.file ≠ e.file)) (diskDelete s.disk e.file)
      (diskWrite (diskDelete s.disk e.file) ("/tmp/voice_" ++ cacheHash kw) sz)
      s.clock sz aty pm heng
      (diskSize_write_self (diskDelete s.disk e.file) ("/tmp/voice_" ++ cacheHash kw) sz)
      hbound]
  refine ⟨rfl, rfl, ?_, ?_, diskExists_write_self _ _ _⟩
  · simp only [dbGetNumFiles, List.length_append, List.length_cons, List.length_nil]
    omega
  · apply find_append_singleton
    · apply List.find?_eq_none.mpr
      intro x hx
      have hx2 := List.mem_filter.mp hx
      simp only [decide_eq_true_eq]
      intro hhash
      have := huniq x hx2.1 hhash
      subst this
      simp at hx2
    · simp

theorem self_heal_same_path_witness :
    dbGetNumFiles (callEngine dummy100 401 helloKw
      ⟨[⟨cacheHash helloKw, derivedPath helloKw, "ogg_vorbis", 0, 100⟩], [], 7⟩).1.table
      = dbGetNumFiles
          ([⟨cacheHash helloKw, derivedPath helloKw, "ogg_vorbis", 0, 100⟩] : Table) ∧
    (callEngine dummy100 401 helloKw
      ⟨[⟨cacheHash helloKw, derivedPath helloKw, "ogg_vorbis", 0, 100⟩], [], 7⟩).2
      = .ok ⟨derivedPath helloKw, "ogg_vorbis", "(some header: some data)", none⟩ := by
  have h := self_heal_same_path dummy100 401 helloKw
    ⟨[⟨cacheHash helloKw, derivedPath helloKw, "ogg_vorbis", 0, 100⟩], [], 7⟩
    ⟨cacheHash helloKw, derivedPath helloKw, "ogg_vorbis", 0, 100⟩
    100 "ogg_vorbis" "(some header: some data)"
    rfl (by decide) (by decide) (by decide) (by decide) (by decide) (by decide)
  exact ⟨h.2.2.1, h.1⟩

theorem engine_failure_no_persist_witness :
    (callEngine disconnectedEngine 100000000 helloKw initState).1.table
      = initState.table ∧
    (callEngine disconnectedEngine 100000000 helloKw staleHelloState).1.table =
      staleHelloState.table.filter (fun x => x.file ≠ derivedPath helloKw) := by
  constructor
  · exact ((engine_failure_no_persist disconnectedEngine 100000000 helloKw initState
      "(dummy head: dummy val)" rfl).1 rfl (by decide)).1
  · exact ((engine_failure_no_persist disconnectedEngine 100000000 helloKw staleHelloState
      "(dummy head: dummy val)" rfl).2
      ⟨cacheHash helloKw, derivedPath helloKw, "ogg_vorbis", 0, 50000⟩
      (by decide) (by decide) (by decide)).1

end TTS
